import Mathlib

/-!
Shallow embedding of `tss-esapi/src/structures/pcr/select.rs`: the
`PcrSlot` bit-flag enumeration, the `PcrSelectSize` enumeration, the
`PcrSelect` aggregate, and the conversions to and from the
`TPMS_PCR_SELECT` wire structure.

Machine integers (`u8`, `u32`) are modelled as `Nat` with explicit range
hypotheses where they matter; fallible conversions return `Except Error`.
The external `enumflags2::BitFlags<PcrSlot>` value is modelled by its raw
`u32` mask (a `Nat`): its crate-maintained invariant (only defined flag
bits set) is re-established here by every constructor that the source
uses, and its `PartialEq` compares the raw masks, as structural equality
on `Nat` does here.
-/

/-- Error kinds of the wrapper used by this module (`WrapperErrorKind`). -/
inductive WrapperErrorKind
  | InvalidParam
  | UnsupportedParam
deriving DecidableEq

/-- `Error::local_error(kind)` as used by this module. -/
inductive Error
  | local_error (kind : WrapperErrorKind)
deriving DecidableEq

/-- The 24 PCR slot bit flags (`enum PcrSlot`). -/
inductive PcrSlot
  | Slot0
  | Slot1
  | Slot2
  | Slot3
  | Slot4
  | Slot5
  | Slot6
  | Slot7
  | Slot8
  | Slot9
  | Slot10
  | Slot11
  | Slot12
  | Slot13
  | Slot14
  | Slot15
  | Slot16
  | Slot17
  | Slot18
  | Slot19
  | Slot20
  | Slot21
  | Slot22
  | Slot23
deriving DecidableEq, Fintype

/-- The discriminant of each `PcrSlot` variant (`From<PcrSlot> for u32`,
via `BitFlags::bits`). -/
def PcrSlot.bits : PcrSlot → Nat
  | .Slot0 => 0x00000001
  | .Slot1 => 0x00000002
  | .Slot2 => 0x00000004
  | .Slot3 => 0x00000008
  | .Slot4 => 0x00000010
  | .Slot5 => 0x00000020
  | .Slot6 => 0x00000040
  | .Slot7 => 0x00000080
  | .Slot8 => 0x00000100
  | .Slot9 => 0x00000200
  | .Slot10 => 0x00000400
  | .Slot11 => 0x00000800
  | .Slot12 => 0x00001000
  | .Slot13 => 0x00002000
  | .Slot14 => 0x00004000
  | .Slot15 => 0x00008000
  | .Slot16 => 0x00010000
  | .Slot17 => 0x00020000
  | .Slot18 => 0x00040000
  | .Slot19 => 0x00080000
  | .Slot20 => 0x00100000
  | .Slot21 => 0x00200000
  | .Slot22 => 0x00400000
  | .Slot23 => 0x00800000

/-- Bit position of each slot (`Slot_i` has bit value `2 ^ i`); proof
scaffolding, not a source function. -/
def PcrSlot.idx : PcrSlot → Nat
  | .Slot0 => 0
  | .Slot1 => 1
  | .Slot2 => 2
  | .Slot3 => 3
  | .Slot4 => 4
  | .Slot5 => 5
  | .Slot6 => 6
  | .Slot7 => 7
  | .Slot8 => 8
  | .Slot9 => 9
  | .Slot10 => 10
  | .Slot11 => 11
  | .Slot12 => 12
  | .Slot13 => 13
  | .Slot14 => 14
  | .Slot15 => 15
  | .Slot16 => 16
  | .Slot17 => 17
  | .Slot18 => 18
  | .Slot19 => 19
  | .Slot20 => 20
  | .Slot21 => 21
  | .Slot22 => 22
  | .Slot23 => 23

/-- The flag list of the `PcrSlot` enumeration, in declaration order
(ascending bit position), as `enumflags2` derives it. -/
def allPcrSlots : List PcrSlot :=
  [.Slot0, .Slot1, .Slot2, .Slot3, .Slot4, .Slot5, .Slot6, .Slot7,
   .Slot8, .Slot9, .Slot10, .Slot11, .Slot12, .Slot13, .Slot14, .Slot15,
   .Slot16, .Slot17, .Slot18, .Slot19, .Slot20, .Slot21, .Slot22, .Slot23]

/-- `BitFlags::<PcrSlot>::ALL_BITS`: the OR of every defined flag. -/
def PCR_SLOT_ALL_BITS : Nat :=
  (allPcrSlots.map PcrSlot.bits).foldl (fun m b => m ||| b) 0

/-- The `u32` complement `!ALL_BITS` used by `BitFlags::from_bits`. -/
def PCR_SLOT_NOT_ALL_BITS : Nat := 0xFFFFFFFF ^^^ PCR_SLOT_ALL_BITS

namespace BitFlags

/-- `BitFlags::<PcrSlot>::try_from(u32)` (via `from_bits`): rejects any
value with a bit outside the defined flags, otherwise keeps the mask. -/
def from_bits (v : Nat) : Option Nat :=
  if v &&& PCR_SLOT_NOT_ALL_BITS != 0 then none else some v

/-- `BitFlags::contains` for a single-bit flag. -/
def contains (m : Nat) (s : PcrSlot) : Bool :=
  (m &&& s.bits) == s.bits

/-- `BitFlags::iter`: the defined flags contained in the mask, in
declaration order. -/
def iter (m : Nat) : List PcrSlot :=
  allPcrSlots.filter (fun s => contains m s)

/-- `FromIterator` for `BitFlags` (`collect`): OR of all elements,
starting from the empty mask. -/
def fromList (l : List PcrSlot) : Nat :=
  l.foldl (fun m s => m ||| s.bits) 0

end BitFlags

instance {e a : Type} [DecidableEq e] [DecidableEq a] : DecidableEq (Except e a) := fun
  | .ok x, .ok y =>
    if h : x = y then .isTrue (by rw [h]) else .isFalse (fun he => by cases he; exact h rfl)
  | .ok _, .error _ => .isFalse (fun he => by cases he)
  | .error _, .ok _ => .isFalse (fun he => by cases he)
  | .error x, .error y =>
    if h : x = y then .isTrue (by rw [h]) else .isFalse (fun he => by cases he; exact h rfl)

/-- `TryFrom<u32> for PcrSlot`: parses the mask, then requires the flag
iterator to yield exactly one flag. -/
def PcrSlot.try_from_u32 (pcr_slot : Nat) : Except Error PcrSlot :=
  match BitFlags.from_bits pcr_slot with
  | none => .error (Error.local_error .InvalidParam)
  | some bit_flags =>
    match BitFlags.iter bit_flags with
    | [] => .error (Error.local_error .InvalidParam)
    | [s] => .ok s
    | _ :: _ :: _ => .error (Error.local_error .InvalidParam)

/-- `TPM2_PCR_SELECT_MAX` from the tss constants: `(TPM2_MAX_PCRS + 7) / 8
= 4`, matching `u32::to_le_bytes`. -/
def TPM2_PCR_SELECT_MAX : Nat := 4

/-- A `[u8; TPM2_PCR_SELECT_MAX]` byte array; each field is one byte. -/
structure Bytes4 where
  b0 : Nat
  b1 : Nat
  b2 : Nat
  b3 : Nat
deriving DecidableEq

/-- `u32::to_le_bytes`. -/
def u32_to_le_bytes (v : Nat) : Bytes4 :=
  ⟨v % 256, v / 256 % 256, v / 65536 % 256, v / 16777216 % 256⟩

/-- `u32::from_le_bytes`. -/
def u32_from_le_bytes (b : Bytes4) : Nat :=
  b.b0 + 256 * b.b1 + 65536 * b.b2 + 16777216 * b.b3

/-- `From<PcrSlot> for [u8; TPM2_PCR_SELECT_MAX]`. -/
def PcrSlot.to_le_bytes (pcr_slot : PcrSlot) : Bytes4 :=
  u32_to_le_bytes pcr_slot.bits

/-- `TryFrom<[u8; TPM2_PCR_SELECT_MAX]> for PcrSlot`. -/
def PcrSlot.try_from_bytes (tss_pcr_slot : Bytes4) : Except Error PcrSlot :=
  PcrSlot.try_from_u32 (u32_from_le_bytes tss_pcr_slot)

/-- `enum PcrSelectSize`: the possible values for sizeofSelect. -/
inductive PcrSelectSize
  | OneByte
  | TwoBytes
  | ThreeBytes
  | FourBytes
deriving DecidableEq

/-- Derived `FromPrimitive::from_u8`: matches the discriminants 1..=4. -/
def PcrSelectSize.from_u8 (n : Nat) : Option PcrSelectSize :=
  if n = 1 then some .OneByte
  else if n = 2 then some .TwoBytes
  else if n = 3 then some .ThreeBytes
  else if n = 4 then some .FourBytes
  else none

/-- Derived `ToPrimitive::to_u8`: the discriminant, always `some`. -/
def PcrSelectSize.to_u8 : PcrSelectSize → Option Nat
  | .OneByte => some 1
  | .TwoBytes => some 2
  | .ThreeBytes => some 3
  | .FourBytes => some 4

/-- `struct PcrSelect`; `selected_pcrs` is the raw `BitFlags` mask. -/
structure PcrSelect where
  size_of_select : PcrSelectSize
  selected_pcrs : Nat
deriving DecidableEq

/-- `PcrSelect::new`: collects the given slots into a `BitFlags` mask. -/
def PcrSelect.new (size_of_select : PcrSelectSize) (pcr_slots : List PcrSlot) :
    PcrSelect :=
  ⟨size_of_select, BitFlags.fromList pcr_slots⟩

/-- `PcrSelect::selected_pcrs`: `self.selected_pcrs.iter().collect()`. -/
def PcrSelect.selected_pcrs_list (p : PcrSelect) : List PcrSlot :=
  BitFlags.iter p.selected_pcrs

/-- `struct TPMS_PCR_SELECT` (the wire structure). -/
structure TPMS_PCR_SELECT where
  sizeofSelect : Nat
  pcrSelect : Bytes4
deriving DecidableEq

/-- `TryFrom<TPMS_PCR_SELECT> for PcrSelect`: validates the size field
first (struct fields are evaluated in written order), then the mask. -/
def PcrSelect.try_from_tpms (tss_pcr_select : TPMS_PCR_SELECT) :
    Except Error PcrSelect :=
  match PcrSelectSize.from_u8 tss_pcr_select.sizeofSelect with
  | none => .error (Error.local_error .InvalidParam)
  | some size_of_select =>
    match BitFlags.from_bits (u32_from_le_bytes tss_pcr_select.pcrSelect) with
    | none => .error (Error.local_error .UnsupportedParam)
    | some selected_pcrs => .ok ⟨size_of_select, selected_pcrs⟩

/-- `From<PcrSelect> for TPMS_PCR_SELECT`, with the source's
`to_u8().unwrap()` kept as an `Option`: `none` is the panic branch. -/
def tpms_of_pcr_select? (pcr_select : PcrSelect) : Option TPMS_PCR_SELECT :=
  match pcr_select.size_of_select.to_u8 with
  | none => none
  | some n => some ⟨n, u32_to_le_bytes pcr_select.selected_pcrs⟩

/-- Total form of the serializer; the default is never used because
`to_u8` is total in fact (see the safety theorem for C7). -/
def tpms_of_pcr_select (pcr_select : PcrSelect) : TPMS_PCR_SELECT :=
  (tpms_of_pcr_select? pcr_select).getD ⟨0, ⟨0, 0, 0, 0⟩⟩

/-- The slot with a given bit position (total, clamped); proof
scaffolding, not a source function. -/
def slotOfIdx (i : Nat) : PcrSlot :=
  match i with
  | 0 => .Slot0
  | 1 => .Slot1
  | 2 => .Slot2
  | 3 => .Slot3
  | 4 => .Slot4
  | 5 => .Slot5
  | 6 => .Slot6
  | 7 => .Slot7
  | 8 => .Slot8
  | 9 => .Slot9
  | 10 => .Slot10
  | 11 => .Slot11
  | 12 => .Slot12
  | 13 => .Slot13
  | 14 => .Slot14
  | 15 => .Slot15
  | 16 => .Slot16
  | 17 => .Slot17
  | 18 => .Slot18
  | 19 => .Slot19
  | 20 => .Slot20
  | 21 => .Slot21
  | 22 => .Slot22
  | _ => .Slot23


lemma PcrSlot.bits_eq (s : PcrSlot) : s.bits = 2 ^ s.idx := by cases s <;> rfl

lemma PcrSlot.idx_lt (s : PcrSlot) : s.idx < 24 := by cases s <;> decide

lemma PcrSlot.bits_lt (s : PcrSlot) : s.bits < 2 ^ 24 := by cases s <;> decide

lemma PcrSlot.idx_inj : ∀ s t : PcrSlot, s.idx = t.idx → s = t := by decide

lemma PcrSlot.mem_all (s : PcrSlot) : s ∈ allPcrSlots := by cases s <;> decide

lemma slotOfIdx_idx {i : Nat} (h : i < 24) : (slotOfIdx i).idx = i := by
  interval_cases i <;> rfl

lemma testBit_not_all (i : Nat) :
    Nat.testBit PCR_SLOT_NOT_ALL_BITS i = (decide (24 ≤ i) && decide (i < 32)) := by
  have h : PCR_SLOT_NOT_ALL_BITS = (2 ^ 8 - 1) <<< 24 := by rfl
  rw [h, Nat.testBit_shiftLeft, Nat.testBit_two_pow_sub_one]
  by_cases h24 : 24 ≤ i
  · simp only [ge_iff_le, h24, decide_True, Bool.true_and]
    exact decide_eq_decide.mpr (by omega)
  · simp [ge_iff_le, h24]

lemma and_not_all_eq (v : Nat) (hv : v < 2 ^ 32) :
    v &&& PCR_SLOT_NOT_ALL_BITS = 2 ^ 24 * (v / 2 ^ 24) := by
  apply Nat.eq_of_testBit_eq
  intro i
  rw [Nat.testBit_and, testBit_not_all]
  have h2 : 2 ^ 24 * (v / 2 ^ 24) = (v >>> 24) <<< 24 := by
    rw [Nat.shiftRight_eq_div_pow, Nat.shiftLeft_eq]
    ring
  rw [h2, Nat.testBit_shiftLeft, Nat.testBit_shiftRight]
  by_cases h24 : 24 ≤ i
  · have he : 24 + (i - 24) = i := by omega
    rw [he]
    by_cases h32 : i < 32
    · simp [ge_iff_le, h24, h32]
    · have hf : Nat.testBit v i = false :=
        Nat.testBit_lt_two_pow (lt_of_lt_of_le hv (Nat.pow_le_pow_right (by omega) (by omega)))
    
      simp [hf, h32]
  · simp [ge_iff_le, h24]

lemma from_bits_eq (v : Nat) (hv : v < 2 ^ 32) :
    BitFlags.from_bits v = if v < 2 ^ 24 then some v else none := by
  unfold BitFlags.from_bits
  rw [and_not_all_eq v hv]
  by_cases h : v < 2 ^ 24
  · have hd : (2 ^ 24 * (v / 2 ^ 24) != 0) = false := by
      simp
      omega
    rw [hd]
    simp
    omega
  · have hd : (2 ^ 24 * (v / 2 ^ 24) != 0) = true := by
      simp
      omega
    rw [hd]
    rw [if_pos rfl, if_neg (by omega)]

lemma from_bits_of_lt {v : Nat} (h : v < 2 ^ 24) : BitFlags.from_bits v = some v := by
  rw [from_bits_eq v (by omega), if_pos h]

lemma from_bits_of_ge {v : Nat} (hv : v < 2 ^ 32) (h : 2 ^ 24 ≤ v) :
    BitFlags.from_bits v = none := by
  rw [from_bits_eq v hv, if_neg (by omega)]

lemma foldl_or_lt (l : List PcrSlot) (acc : Nat) (h : acc < 2 ^ 24) :
    l.foldl (fun m s => m ||| s.bits) acc < 2 ^ 24 := by
  induction l generalizing acc with
  | nil => simpa using h
  | cons t ts ih => exact ih _ (Nat.or_lt_two_pow h (PcrSlot.bits_lt t))

lemma fromList_lt (l : List PcrSlot) : BitFlags.fromList l < 2 ^ 24 :=
  foldl_or_lt l 0 (by omega)

lemma le_bytes_left_inv (v : Nat) (hv : v < 2 ^ 32) :
    u32_from_le_bytes (u32_to_le_bytes v) = v := by
  simp only [u32_to_le_bytes, u32_from_le_bytes]
  omega

lemma le_bytes_right_inv (b : Bytes4) (h0 : b.b0 < 256) (h1 : b.b1 < 256)
    (h2 : b.b2 < 256) (h3 : b.b3 < 256) :
    u32_to_le_bytes (u32_from_le_bytes b) = b := by
  cases b with
  | mk x0 x1 x2 x3 =>
    simp only [u32_to_le_bytes, u32_from_le_bytes, Bytes4.mk.injEq] at *
    refine ⟨?_, ?_, ?_, ?_⟩ <;> omega

lemma from_le_bytes_lt (b : Bytes4) (h0 : b.b0 < 256) (h1 : b.b1 < 256)
    (h2 : b.b2 < 256) (h3 : b.b3 < 256) : u32_from_le_bytes b < 2 ^ 32 := by
  simp only [u32_from_le_bytes]; omega

lemma from_u8_to_u8 (sz : PcrSelectSize) :
    ∃ n, PcrSelectSize.to_u8 sz = some n ∧ PcrSelectSize.from_u8 n = some sz ∧
      1 ≤ n ∧ n ≤ 4 := by
  cases sz <;> exact ⟨_, rfl, rfl, by omega, by omega⟩

lemma from_u8_none {n : Nat} (h : ¬(1 ≤ n ∧ n ≤ 4)) : PcrSelectSize.from_u8 n = none := by
  unfold PcrSelectSize.from_u8
  rw [if_neg (by omega), if_neg (by omega), if_neg (by omega), if_neg (by omega)]

lemma from_u8_some {n : Nat} (h1 : 1 ≤ n) (h4 : n ≤ 4) :
    ∃ sz, PcrSelectSize.from_u8 n = some sz ∧ PcrSelectSize.to_u8 sz = some n := by
  interval_cases n <;> exact ⟨_, rfl, rfl⟩

lemma contains_iff (m : Nat) (s : PcrSlot) :
    BitFlags.contains m s = Nat.testBit m s.idx := by
  unfold BitFlags.contains
  rw [PcrSlot.bits_eq, Nat.and_two_pow]
  cases h : Nat.testBit m s.idx
  · simp
    exact (pow_pos (by norm_num : (0:Nat) < 2) s.idx).ne
  · simp

lemma mem_iter (m : Nat) (s : PcrSlot) :
    s ∈ BitFlags.iter m ↔ Nat.testBit m s.idx := by
  unfold BitFlags.iter
  rw [List.mem_filter, contains_iff]
  simp [PcrSlot.mem_all]

lemma iter_singleton {m : Nat} {s : PcrSlot} (hm : m < 2 ^ 24)
    (h : BitFlags.iter m = [s]) : m = s.bits := by
  have hmem : ∀ t : PcrSlot, Nat.testBit m t.idx ↔ t = s := by
    intro t
    rw [← mem_iter, h, List.mem_singleton]
  apply Nat.eq_of_testBit_eq
  intro i
  rw [PcrSlot.bits_eq, Nat.testBit_two_pow]
  by_cases hi : i < 24
  · have hidx : (slotOfIdx i).idx = i := slotOfIdx_idx hi
    have h1 : Nat.testBit m i = true ↔ s.idx = i := by
      constructor
      · intro hb
        have := (hmem (slotOfIdx i)).mp (by rw [hidx]; exact hb)
        rw [← this, hidx]
      · intro he
        rw [← he]
        exact (hmem s).mpr rfl
    by_cases hsi : s.idx = i
    · simp [hsi, h1.mpr hsi]
    · have hf : Nat.testBit m i = false := by
        cases hb : Nat.testBit m i
        · rfl
        · exact absurd (h1.mp hb) hsi
      simp [hf, hsi]
  · have hf : Nat.testBit m i = false :=
      Nat.testBit_lt_two_pow (lt_of_lt_of_le hm (Nat.pow_le_pow_right (by omega) (by omega)))
    have hne : s.idx ≠ i := by have := PcrSlot.idx_lt s; omega
    simp [hf, hne]

lemma testBit_foldl_or (l : List PcrSlot) (acc : Nat) (i : Nat) :
    Nat.testBit (l.foldl (fun m s => m ||| s.bits) acc) i
      = (Nat.testBit acc i || l.any (fun s => decide (s.idx = i))) := by
  induction l generalizing acc with
  | nil => simp
  | cons t ts ih =>
    rw [List.foldl_cons, ih, List.any_cons, Nat.testBit_or, Bool.or_assoc]
    rw [PcrSlot.bits_eq, Nat.testBit_two_pow]

lemma mem_fromList (l : List PcrSlot) (s : PcrSlot) :
    Nat.testBit (BitFlags.fromList l) s.idx ↔ s ∈ l := by
  unfold BitFlags.fromList
  rw [testBit_foldl_or]
  simp only [Nat.zero_testBit, Bool.false_or]
  rw [List.any_eq_true]
  constructor
  · rintro ⟨t, htl, hti⟩
    rw [decide_eq_true_eq] at hti
    rwa [PcrSlot.idx_inj t s hti] at htl
  · intro hs
    exact ⟨s, hs, by simp⟩

lemma iter_pairwise (m : Nat) :
    List.Pairwise (fun a b : PcrSlot => a.idx < b.idx) (BitFlags.iter m) := by
  have hall : List.Pairwise (fun a b : PcrSlot => a.idx < b.idx) allPcrSlots := by decide
  exact hall.sublist (List.filter_sublist _)

lemma iter_nodup (m : Nat) : (BitFlags.iter m).Nodup :=
  (iter_pairwise m).imp (fun h => by intro he; rw [he] at h; omega)

lemma parse_ok {w : TPMS_PCR_SELECT} {sz : PcrSelectSize}
    (hsz : PcrSelectSize.from_u8 w.sizeofSelect = some sz)
    (hm : u32_from_le_bytes w.pcrSelect < 2 ^ 24) :
    PcrSelect.try_from_tpms w = .ok ⟨sz, u32_from_le_bytes w.pcrSelect⟩ := by
  unfold PcrSelect.try_from_tpms
  rw [hsz, from_bits_of_lt hm]

lemma try_from_u32_cases (v : Nat) (hv : v < 2 ^ 32) :
    (∃ s : PcrSlot, PcrSlot.try_from_u32 v = .ok s ∧ v = s.bits) ∨
      PcrSlot.try_from_u32 v = .error (Error.local_error .InvalidParam) := by
  unfold PcrSlot.try_from_u32
  by_cases hlt : v < 2 ^ 24
  · simp only [from_bits_of_lt hlt]
    rcases hit : BitFlags.iter v with _ | ⟨s, _ | ⟨t, ts⟩⟩ <;> simp only [hit]
    · right; trivial
    · left; exact ⟨s, rfl, iter_singleton hlt hit⟩
    · right; trivial
  · simp only [from_bits_of_ge hv (by omega)]
    right; trivial

/-- C1: every `PcrSelect` built by `PcrSelect::new` from a size and any
list of slots (duplicates allowed) converts to a `TPMS_PCR_SELECT` and
parses back to a value equal to the original. -/
theorem pcr_select_roundtrip_from_typed (sz : PcrSelectSize) (slots : List PcrSlot) :
    PcrSelect.try_from_tpms (tpms_of_pcr_select (PcrSelect.new sz slots)) =
      .ok (PcrSelect.new sz slots) := by
  obtain ⟨n, hto, hfrom, _, _⟩ := from_u8_to_u8 sz
  have hm : BitFlags.fromList slots < 2 ^ 24 := fromList_lt slots
  have hb : u32_from_le_bytes (u32_to_le_bytes (BitFlags.fromList slots)) =
      BitFlags.fromList slots := le_bytes_left_inv _ (by omega)
  have hser : tpms_of_pcr_select (PcrSelect.new sz slots) =
      ⟨n, u32_to_le_bytes (BitFlags.fromList slots)⟩ := by
    unfold tpms_of_pcr_select tpms_of_pcr_select? PcrSelect.new
    rw [hto]
    rfl
  rw [hser, parse_ok hfrom (by show u32_from_le_bytes (u32_to_le_bytes (BitFlags.fromList slots)) < 2 ^ 24; rw [hb]; exact hm)]
  show _ = Except.ok (PcrSelect.new sz slots)
  unfold PcrSelect.new
  rw [show (⟨n, u32_to_le_bytes (BitFlags.fromList slots)⟩ : TPMS_PCR_SELECT).pcrSelect = u32_to_le_bytes (BitFlags.fromList slots) from rfl, hb]

/-- C2 counterexample: the wire structure with size field 0 and mask
`1 <<< 24` has a bit at a position at least 24 set, yet parsing fails with
`InvalidParam`, not `UnsupportedParam`: the size field is checked first,
so the claimed error kind does not hold regardless of size validity. -/
theorem parse_highbit_invalid_size_counterexample :
    PcrSelect.try_from_tpms ⟨0, ⟨0, 0, 0, 1⟩⟩ =
        .error (Error.local_error .InvalidParam) ∧
      PcrSelect.try_from_tpms ⟨0, ⟨0, 0, 0, 1⟩⟩ ≠
        .error (Error.local_error .UnsupportedParam) := by
  decide

/-- C2 amended: for every wire structure whose bytes decode to a mask
with a bit at position at least 24 set, if the size field is in 1..=4
the parse fails with `UnsupportedParam` (when the size field is outside
1..=4 the parse fails earlier with `InvalidParam`). -/
theorem parse_highbit_unsupported (w : TPMS_PCR_SELECT)
    (hb0 : w.pcrSelect.b0 < 256) (hb1 : w.pcrSelect.b1 < 256)
    (hb2 : w.pcrSelect.b2 < 256) (hb3 : w.pcrSelect.b3 < 256)
    (h1 : 1 ≤ w.sizeofSelect) (h4 : w.sizeofSelect ≤ 4)
    (hhi : ∃ i, 24 ≤ i ∧ Nat.testBit (u32_from_le_bytes w.pcrSelect) i) :
    PcrSelect.try_from_tpms w = .error (Error.local_error .UnsupportedParam) := by
  obtain ⟨szv, hfrom, _⟩ := from_u8_some h1 h4
  obtain ⟨i, hi24, hbit⟩ := hhi
  have hv32 : u32_from_le_bytes w.pcrSelect < 2 ^ 32 := from_le_bytes_lt _ hb0 hb1 hb2 hb3
  have hge : 2 ^ 24 ≤ u32_from_le_bytes w.pcrSelect := by
    have h2 : (2:Nat) ^ 24 ≤ 2 ^ i := Nat.pow_le_pow_right (by omega) hi24
    exact h2.trans (Nat.testBit_implies_ge hbit)
  unfold PcrSelect.try_from_tpms
  rw [hfrom, from_bits_of_ge hv32 hge]

theorem parse_highbit_unsupported_witness :
    PcrSelect.try_from_tpms ⟨3, ⟨0, 0, 0, 1⟩⟩ =
      .error (Error.local_error .UnsupportedParam) :=
  parse_highbit_unsupported ⟨3, ⟨0, 0, 0, 1⟩⟩ (by decide) (by decide) (by decide) (by decide)
    (by decide) (by decide) ⟨24, by decide, by decide⟩

/-- C3: the single-slot parse `TryFrom<u32> for PcrSlot` returns `Ok(s)`
with `u32::from(s) = v` exactly when `v` has exactly one bit set, at a
position below 24; in every other case (zero, several bits, or a bit at
position at least 24) it fails with `InvalidParam`. -/
theorem pcr_slot_try_from_u32_spec (v : Nat) (hv : v < 2 ^ 32) :
    ((∃ s, PcrSlot.try_from_u32 v = .ok s ∧ s.bits = v) ↔ ∃ i, i < 24 ∧ v = 2 ^ i)
      ∧ ((¬ ∃ i, i < 24 ∧ v = 2 ^ i) →
        PcrSlot.try_from_u32 v = .error (Error.local_error .InvalidParam)) := by
  constructor
  · constructor
    · rintro ⟨s, hok, hbits⟩
      exact ⟨s.idx, PcrSlot.idx_lt s, by rw [← hbits, PcrSlot.bits_eq]⟩
    · rintro ⟨i, hi, rfl⟩
      refine ⟨slotOfIdx i, ?_, ?_⟩
      · interval_cases i <;> decide
      · rw [PcrSlot.bits_eq, slotOfIdx_idx hi]
  · intro hno
    rcases try_from_u32_cases v hv with ⟨s, hok, hbits⟩ | herr
    · exact absurd ⟨s.idx, PcrSlot.idx_lt s, by rw [hbits, PcrSlot.bits_eq]⟩ hno
    · exact herr

theorem pcr_slot_try_from_u32_spec_witness :
    (5 : Nat) < 2 ^ 32 ∧
      ((∃ s, PcrSlot.try_from_u32 5 = .ok s ∧ s.bits = 5) ↔ ∃ i, i < 24 ∧ (5:Nat) = 2 ^ i) :=
  ⟨by decide, (pcr_slot_try_from_u32_spec 5 (by decide)).1⟩

/-- C4: no cross-field relation between the size field and the selection
bits is enforced: any wire structure with a size field in 1..=4 and mask
bits only below 24 parses successfully, even when a set bit position is
at or above `sizeofSelect * 8`, and `PcrSelect::new` succeeds for every
size/slot-list combination. -/
theorem no_cross_field_validation :
    (∀ w : TPMS_PCR_SELECT,
        w.pcrSelect.b0 < 256 → w.pcrSelect.b1 < 256 → w.pcrSelect.b2 < 256 →
          w.pcrSelect.b3 < 256 → 1 ≤ w.sizeofSelect → w.sizeofSelect ≤ 4 →
          u32_from_le_bytes w.pcrSelect < 2 ^ 24 →
          ∃ p, PcrSelect.try_from_tpms w = .ok p)
      ∧ ∀ (sz : PcrSelectSize) (slots : List PcrSlot),
          ∃ p, PcrSelect.new sz slots = p := by
  constructor
  · intro w _ _ _ _ h1 h4 hm
    obtain ⟨sz, hfrom, _⟩ := from_u8_some h1 h4
    exact ⟨_, parse_ok hfrom hm⟩
  · intro sz slots
    exact ⟨_, rfl⟩

theorem no_cross_field_validation_witness :
    ∃ p, PcrSelect.try_from_tpms ⟨1, ⟨0, 0, 128, 0⟩⟩ = .ok p :=
  no_cross_field_validation.1 ⟨1, ⟨0, 0, 128, 0⟩⟩ (by decide) (by decide) (by decide) (by decide)
    (by decide) (by decide) (by decide)

/-- C5: every defined `PcrSlot` round-trips through its little-endian
byte-array form and through its `u32` form. -/
theorem pcr_slot_roundtrip (s : PcrSlot) :
    PcrSlot.try_from_bytes (PcrSlot.to_le_bytes s) = .ok s ∧
      PcrSlot.try_from_u32 s.bits = .ok s := by
  cases s <;> exact ⟨by decide, by decide⟩

/-- C6: `PcrSelectSize::from_u8` is `none` on 0, 5 and every value
outside 1..=4, maps 1..=4 to the matching variants, and consequently
parsing a wire structure whose size byte is outside 1..=4 fails with
`InvalidParam`. -/
theorem pcr_select_size_from_u8_spec :
    PcrSelectSize.from_u8 0 = none ∧ PcrSelectSize.from_u8 5 = none ∧
      (∀ n : Nat, ¬(1 ≤ n ∧ n ≤ 4) → PcrSelectSize.from_u8 n = none) ∧
      PcrSelectSize.from_u8 1 = some .OneByte ∧
      PcrSelectSize.from_u8 2 = some .TwoBytes ∧
      PcrSelectSize.from_u8 3 = some .ThreeBytes ∧
      PcrSelectSize.from_u8 4 = some .FourBytes ∧
      ∀ w : TPMS_PCR_SELECT, ¬(1 ≤ w.sizeofSelect ∧ w.sizeofSelect ≤ 4) →
        PcrSelect.try_from_tpms w = .error (Error.local_error .InvalidParam) := by
  refine ⟨by decide, by decide, ?_, by decide, by decide, by decide, by decide, ?_⟩
  · intro n h
    exact from_u8_none h
  · intro w h
    unfold PcrSelect.try_from_tpms
    rw [from_u8_none h]

theorem pcr_select_size_from_u8_spec_witness :
    PcrSelectSize.from_u8 9 = none ∧
      PcrSelect.try_from_tpms ⟨9, ⟨1, 2, 3, 4⟩⟩ =
        .error (Error.local_error .InvalidParam) :=
  ⟨pcr_select_size_from_u8_spec.2.2.1 9 (by decide), pcr_select_size_from_u8_spec.2.2.2.2.2.2.2 ⟨9, ⟨1, 2, 3, 4⟩⟩ (by decide)⟩

/-- C7: serializing any `PcrSelect` is total: `to_u8` on the size always
yields a value (the `unwrap` panic branch is unreachable) and the
conversion always produces a wire structure. -/
theorem pcr_select_serialize_total (p : PcrSelect) :
    (∃ n, p.size_of_select.to_u8 = some n) ∧
      ∃ w, tpms_of_pcr_select? p = some w ∧ tpms_of_pcr_select p = w := by
  cases p with
  | mk sz m => cases sz <;> exact ⟨⟨_, rfl⟩, _, rfl, rfl⟩

/-- C8: `PcrSelect::new` always succeeds, collapsing duplicate slots into
a single membership (a slot is selected iff it occurs in the input list),
and for every `PcrSelect` the `selected_pcrs` accessor lists the member
slots in ascending bit-position order without duplicates. -/
theorem pcr_select_new_selected_pcrs_spec :
    (∀ (sz : PcrSelectSize) (slots : List PcrSlot) (s : PcrSlot),
        s ∈ (PcrSelect.new sz slots).selected_pcrs_list ↔ s ∈ slots)
      ∧ ∀ p : PcrSelect,
          List.Pairwise (fun a b : PcrSlot => a.idx < b.idx) p.selected_pcrs_list ∧
            p.selected_pcrs_list.Nodup := by
  constructor
  · intro sz slots s
    unfold PcrSelect.selected_pcrs_list PcrSelect.new
    rw [mem_iter]
    exact mem_fromList slots s
  · intro p
    exact ⟨iter_pairwise _, iter_nodup _⟩

theorem pcr_select_new_selected_pcrs_spec_witness :
    PcrSlot.Slot5 ∈
        (PcrSelect.new .TwoBytes [.Slot5, .Slot5, .Slot9]).selected_pcrs_list ↔
      PcrSlot.Slot5 ∈ ([.Slot5, .Slot5, .Slot9] : List PcrSlot) :=
  pcr_select_new_selected_pcrs_spec.1 .TwoBytes [.Slot5, .Slot5, .Slot9] .Slot5

/-- C9: every valid wire structure (size field in 1..=4, mask bits only
below 24) parses successfully, and serializing the result reproduces the
wire structure exactly. -/
theorem pcr_select_roundtrip_from_wire (w : TPMS_PCR_SELECT)
    (hb0 : w.pcrSelect.b0 < 256) (hb1 : w.pcrSelect.b1 < 256)
    (hb2 : w.pcrSelect.b2 < 256) (hb3 : w.pcrSelect.b3 < 256)
    (h1 : 1 ≤ w.sizeofSelect) (h4 : w.sizeofSelect ≤ 4)
    (hm : u32_from_le_bytes w.pcrSelect < 2 ^ 24) :
    ∃ p, PcrSelect.try_from_tpms w = .ok p ∧ tpms_of_pcr_select p = w := by
  obtain ⟨n, b⟩ := w
  obtain ⟨sz, hfrom, hto⟩ := from_u8_some h1 h4
  refine ⟨⟨sz, u32_from_le_bytes b⟩, parse_ok hfrom hm, ?_⟩
  unfold tpms_of_pcr_select tpms_of_pcr_select?
  rw [show (⟨sz, u32_from_le_bytes b⟩ : PcrSelect).size_of_select.to_u8 = some n from hto]
  show (⟨n, u32_to_le_bytes (u32_from_le_bytes b)⟩ : TPMS_PCR_SELECT) = ⟨n, b⟩
  rw [le_bytes_right_inv b hb0 hb1 hb2 hb3]

theorem pcr_select_roundtrip_from_wire_witness :
    ∃ p, PcrSelect.try_from_tpms ⟨2, ⟨7, 0, 0, 0⟩⟩ = .ok p ∧
      tpms_of_pcr_select p = ⟨2, ⟨7, 0, 0, 0⟩⟩ :=
  pcr_select_roundtrip_from_wire ⟨2, ⟨7, 0, 0, 0⟩⟩ (by decide) (by decide) (by decide) (by decide)
    (by decide) (by decide) (by decide)

/-- C10: the parse validates the size field before the selection bits:
an out-of-range size field yields `InvalidParam` whatever the bytes hold,
so `UnsupportedParam` only ever occurs with a size field in 1..=4. -/
theorem parse_size_checked_first :
    (∀ w : TPMS_PCR_SELECT, ¬(1 ≤ w.sizeofSelect ∧ w.sizeofSelect ≤ 4) →
        PcrSelect.try_from_tpms w = .error (Error.local_error .InvalidParam))
      ∧ ∀ w : TPMS_PCR_SELECT,
          PcrSelect.try_from_tpms w = .error (Error.local_error .UnsupportedParam) →
            1 ≤ w.sizeofSelect ∧ w.sizeofSelect ≤ 4 := by
  have hbase : ∀ w : TPMS_PCR_SELECT, ¬(1 ≤ w.sizeofSelect ∧ w.sizeofSelect ≤ 4) →
      PcrSelect.try_from_tpms w = .error (Error.local_error .InvalidParam) := by
    intro w h
    unfold PcrSelect.try_from_tpms
    rw [from_u8_none h]
  refine ⟨hbase, ?_⟩
  intro w hue
  by_contra h
  rw [hbase w h] at hue
  exact absurd hue (by decide)

theorem parse_size_checked_first_witness :
    PcrSelect.try_from_tpms ⟨0, ⟨0, 0, 0, 9⟩⟩ =
      .error (Error.local_error .InvalidParam) :=
  parse_size_checked_first.1 ⟨0, ⟨0, 0, 0, 9⟩⟩ (by decide)
